import Mathlib

/-!
Verification of the COVID-19 rule-based expert system
(`src/covid_expert_system.py`).

The repository's own code declares a two-rule knowledge base (CLIPS
`defrule` strings in `_build_rules`) and drives an external
production-rule engine from `diagnose()`.  The forward-chaining engine
itself (fact store, matcher, match-select-fire loop) lives in the
external CLIPS library, so it is modelled here from the specification
(sections 3, 4.1, 4.2 of the spec); the rule base content (rule names,
condition sets and conclusion strings) is taken from the source's
`defrule` declarations, which agree with spec section 4.3.
-/

set_option maxRecDepth 4096

namespace CovidES

/-- Modelled from the spec: a Fact is an immutable pair of a kind
identifier and an attribute mapping (spec section 3); attribute maps are
represented as association lists.  Two facts are equal iff kind and all
attributes are equal (value semantics). -/
structure Fact where
  kind : String
  attrs : List (String × String)
deriving DecidableEq, Repr

/-- Modelled from the spec: a condition pattern names a required fact:
a kind together with attribute constraints, each an exact-equality
requirement on one attribute (spec sections 3 and 4.1 `contains`). -/
structure Pattern where
  kind : String
  constraints : List (String × String)
deriving DecidableEq, Repr

/-- Look up an attribute value on a fact. -/
def Fact.lookup (f : Fact) (a : String) : Option String :=
  (f.attrs.find? (fun c => c.1 = a)).map (fun c => c.2)

/-- A fact matches a pattern when the kinds coincide and every
attribute constraint is satisfied by exact equality. -/
def matchesPattern (f : Fact) (p : Pattern) : Bool :=
  f.kind = p.kind && p.constraints.all (fun c => f.lookup c.1 = some c.2)

/-- Modelled from the spec: the Fact Store (working memory) is a
duplicate-free collection of facts with deterministic insertion-order
enumeration (spec sections 3 and 4.1).  It is represented as the list of
facts in insertion order. -/
abbrev Store : Type := List Fact

/-- Modelled from the spec: `assert(fact) -> bool` adds the fact if not
already present and reports whether it was newly added; no side effect
when already present (spec section 4.1). -/
def Store.assertFact (s : Store) (f : Fact) : Bool × Store :=
  if f ∈ s then (false, s) else (true, s ++ [f])

/-- Modelled from the spec: `contains`-style satisfaction test: at least
one current fact matches the pattern (spec section 4.1). -/
def Store.satisfies (s : Store) (p : Pattern) : Bool :=
  (s : List Fact).any (fun f => matchesPattern f p)

/-- Modelled from the spec: `clear()` removes all facts (spec
section 4.1); it is the only removing operation in this domain. -/
def Store.clearAll (_ : Store) : Store := ([] : List Fact)

/-- Modelled from the spec: a Rule is a named pair of a conjunctive
condition set and a single fact-producing conclusion (spec section 3). -/
structure Rule where
  name : String
  conditions : List Pattern
  conclusion : Fact
deriving DecidableEq, Repr

/-- A rule is activated when every condition pattern is satisfied by the
current Fact Store (spec section 4.2 step a). -/
def activated (s : Store) (r : Rule) : Bool :=
  r.conditions.all (fun p => s.satisfies p)

/-- Modelled from the spec: conflict resolution (spec section 4.2
step b): among the activation set, select every activated rule whose
conclusion fact is not already present, in Rule Base declaration
order. -/
def selectRules (rules : List Rule) (s : Store) : List Rule :=
  rules.filter (fun r => activated s r && !(decide (r.conclusion ∈ s)))

/-- Fire a selected batch of rules: assert each conclusion in order
(spec section 4.2 step c). -/
def fireAll (sel : List Rule) (s : Store) : Store :=
  sel.foldl (fun st r => (st.assertFact r.conclusion).2) s

/-- Result of one `run()` invocation: the fired-rule names in firing
order, the final store, and the number of match-select-fire passes the
loop performed. -/
structure RunResult where
  fired : List String
  store : Store
  passes : Nat
deriving DecidableEq, Repr

/-- Modelled from the spec: the match-select-fire loop of `run()` (spec
section 4.2), with an explicit pass budget; each iteration matches
against the pass-start store, fires all selected rules, and stops as
soon as a pass fires nothing (quiescence). -/
def runLoop (rules : List Rule) : Nat → Store → RunResult
  | 0, s => ⟨[], s, 0⟩
  | fuel + 1, s =>
    let sel := selectRules rules s
    if sel.isEmpty then ⟨[], s, 1⟩
    else
      let r := runLoop rules fuel (fireAll sel s)
      ⟨sel.map Rule.name ++ r.fired, r.store, r.passes + 1⟩

/-- Modelled from the spec: `run()` executes the match-select-fire loop
to quiescence; a budget of `|rules| + 1` passes is always sufficient
(spec section 4.2 step 2), as proved below. -/
def run (rules : List Rule) (s : Store) : RunResult :=
  runLoop rules (rules.length + 1) s

/-- A symptom fact, as asserted by `diagnose()` for each selected
checkbox (source lines 144-147), in the spec's data model (spec
section 3). -/
def symptomFact (n : String) : Fact :=
  ⟨"symptom", [("name", n)]⟩

/-- A diagnosis fact, as asserted by the rules' right-hand sides
(source lines 123 and 133). -/
def diagnosisFact (r : String) : Fact :=
  ⟨"diagnosis", [("result", r)]⟩

/-- A condition pattern requiring a particular symptom to be present. -/
def symptomPat (n : String) : Pattern :=
  ⟨"symptom", [("name", n)]⟩

/-- Rule `covid-likely` from the source (`_build_rules`, lines 117-125):
fever, cough and loss_of_taste conclude "Likely COVID-19". -/
def covidLikely : Rule :=
  ⟨"covid-likely",
   [symptomPat "fever", symptomPat "cough", symptomPat "loss_of_taste"],
   diagnosisFact "Likely COVID-19"⟩

/-- Rule `covid-severe` from the source (`_build_rules`, lines
128-135): fever and difficulty_breathing conclude "Possible severe
COVID-19 - seek medical attention". -/
def covidSevere : Rule :=
  ⟨"covid-severe",
   [symptomPat "fever", symptomPat "difficulty_breathing"],
   diagnosisFact "Possible severe COVID-19 - seek medical attention"⟩

/-- The fixed two-rule base, in declaration order (source
`_build_rules`). -/
def covidRules : List Rule := [covidLikely, covidSevere]

/-- The initial Fact Store built by `diagnose()` for a checkbox
selection: one symptom fact per flagged symptom, asserted in the
source's dictionary order fever, cough, loss_of_taste,
difficulty_breathing (source lines 60-65 and 144-147). -/
def initialStore (fever cough lossOfTaste difficultyBreathing : Bool) : Store :=
  ((if fever then [symptomFact "fever"] else []) ++
   (if cough then [symptomFact "cough"] else []) ++
   (if lossOfTaste then [symptomFact "loss_of_taste"] else []) ++
   (if difficultyBreathing then [symptomFact "difficulty_breathing"] else []) : List Fact)

/-- The diagnosis result strings collected from the store, mirroring
the loop in `diagnose()` that keeps `fact['result']` for every fact
whose template is `diagnosis` (source lines 157-166). -/
def diagnoses (s : Store) : List String :=
  (s : List Fact).filterMap
    (fun f => if f.kind = "diagnosis" then f.lookup "result" else none)

/-- The agenda right after `run()` has returned: the activations not
yet fired.  Firing removes an activation, so these are exactly the
activated rules whose conclusion is still absent.  `diagnose()`
enumerates this agenda after `run()` finishes (source lines 168-176) to
build its fired-rules list. -/
def agendaAfterRun (rules : List Rule) (s : Store) : List String :=
  (selectRules rules (run rules s).store).map Rule.name

/-- The text placed in the fired-rules box by `diagnose()` (source
lines 188-195): the agenda items if any, else a placeholder line. -/
def firedRulesText (fr : List String) : String :=
  if fr.isEmpty then "(No items on the CLIPS agenda or agenda not available)"
  else String.intercalate "\n" fr

/-- Asserting `g` makes membership the union of the old store and `g`. -/
lemma mem_assertFact (s : Store) (g f : Fact) :
    f ∈ (s.assertFact g).2 ↔ f ∈ s ∨ f = g := by
  unfold Store.assertFact
  by_cases hg : g ∈ s
  · simp only [if_pos hg]
    constructor
    · exact Or.inl
    · rintro (h | rfl)
      · exact h
      · exact hg
  · simp [if_neg hg, List.mem_append]

/-- A fact is in the store right after it has been asserted. -/
lemma self_mem_assertFact (s : Store) (g : Fact) : g ∈ (s.assertFact g).2 :=
  (mem_assertFact s g g).mpr (Or.inr rfl)

/-- Membership after firing a batch: the old facts together with the
batch's conclusions. -/
lemma mem_fireAll (sel : List Rule) (s : Store) (f : Fact) :
    f ∈ fireAll sel s ↔ f ∈ s ∨ ∃ r ∈ sel, r.conclusion = f := by
  induction sel generalizing s with
  | nil => simp [fireAll]
  | cons r t ih =>
    show f ∈ fireAll t (s.assertFact r.conclusion).2 ↔ _
    rw [ih, mem_assertFact]
    simp only [List.mem_cons]
    constructor
    · rintro ((h | rfl) | ⟨r2, h2, rfl⟩)
      · exact Or.inl h
      · exact Or.inr ⟨r, Or.inl rfl, rfl⟩
      · exact Or.inr ⟨r2, Or.inr h2, rfl⟩
    · rintro (h | ⟨r2, (rfl | h2), rfl⟩)
      · exact Or.inl (Or.inl h)
      · exact Or.inl (Or.inr rfl)
      · exact Or.inr ⟨r2, h2, rfl⟩

/-- Firing never removes a fact. -/
lemma mem_fireAll_of_mem {s : Store} {f : Fact} (sel : List Rule) (h : f ∈ s) :
    f ∈ fireAll sel s :=
  (mem_fireAll sel s f).mpr (Or.inl h)

/-- Every fired rule's conclusion is present after the batch fires. -/
lemma conclusion_mem_fireAll {sel : List Rule} {r : Rule} (s : Store) (h : r ∈ sel) :
    r.conclusion ∈ fireAll sel s :=
  (mem_fireAll sel s r.conclusion).mpr (Or.inr ⟨r, h, rfl⟩)

/-- Pattern satisfaction only depends on which facts are in the store,
not on their order or multiplicity. -/
lemma satisfies_congr {s1 s2 : Store} (hmem : ∀ f, f ∈ s1 ↔ f ∈ s2) (p : Pattern) :
    Store.satisfies s1 p = Store.satisfies s2 p := by
  unfold Store.satisfies
  rw [Bool.eq_iff_iff, List.any_eq_true, List.any_eq_true]
  constructor
  · rintro ⟨f, hf, hm⟩
    exact ⟨f, (hmem f).mp hf, hm⟩
  · rintro ⟨f, hf, hm⟩
    exact ⟨f, (hmem f).mpr hf, hm⟩

/-- Rule activation only depends on which facts are in the store. -/
lemma activated_congr {s1 s2 : Store} (hmem : ∀ f, f ∈ s1 ↔ f ∈ s2) (r : Rule) :
    activated s1 r = activated s2 r := by
  unfold activated
  rw [Bool.eq_iff_iff, List.all_eq_true, List.all_eq_true]
  constructor
  · intro h p hp
    rw [← satisfies_congr hmem p]
    exact h p hp
  · intro h p hp
    rw [satisfies_congr hmem p]
    exact h p hp

/-- Conflict resolution only depends on which facts are in the store. -/
lemma selectRules_congr {s1 s2 : Store} (rules : List Rule)
    (hmem : ∀ f, f ∈ s1 ↔ f ∈ s2) :
    selectRules rules s1 = selectRules rules s2 := by
  unfold selectRules
  refine List.filter_congr (fun r _ => ?_)
  rw [activated_congr hmem r, decide_eq_decide.mpr (hmem r.conclusion)]

/-- Unfolding equation for one iteration of the run loop. -/
lemma runLoop_succ (rules : List Rule) (fuel : Nat) (s : Store) :
    runLoop rules (fuel + 1) s =
      if (selectRules rules s).isEmpty then ⟨[], s, 1⟩
      else
        ⟨(selectRules rules s).map Rule.name ++
           (runLoop rules fuel (fireAll (selectRules rules s) s)).fired,
         (runLoop rules fuel (fireAll (selectRules rules s) s)).store,
         (runLoop rules fuel (fireAll (selectRules rules s) s)).passes + 1⟩ := rfl

/-- The run loop is determined, pass by pass, by which facts are in the
store: same membership in, same fired sequence, pass count and final
membership out. -/
lemma runLoop_congr (rules : List Rule) :
    ∀ (fuel : Nat) (s1 s2 : Store), (∀ f, f ∈ s1 ↔ f ∈ s2) →
      (runLoop rules fuel s1).fired = (runLoop rules fuel s2).fired ∧
      (runLoop rules fuel s1).passes = (runLoop rules fuel s2).passes ∧
      ∀ f, f ∈ (runLoop rules fuel s1).store ↔ f ∈ (runLoop rules fuel s2).store
  | 0, s1, s2, hmem => ⟨rfl, rfl, hmem⟩
  | fuel + 1, s1, s2, hmem => by
    have hsel : selectRules rules s1 = selectRules rules s2 :=
      selectRules_congr rules hmem
    rw [runLoop_succ, runLoop_succ, hsel]
    by_cases he : (selectRules rules s2).isEmpty
    · simp only [if_pos he]
      exact ⟨trivial, trivial, hmem⟩
    · simp only [if_neg he]
      have hnext : ∀ f, f ∈ fireAll (selectRules rules s2) s1 ↔
          f ∈ fireAll (selectRules rules s2) s2 := by
        intro f
        rw [mem_fireAll, mem_fireAll, hmem f]
      have ih := runLoop_congr rules fuel
        (fireAll (selectRules rules s2) s1) (fireAll (selectRules rules s2) s2) hnext
      exact ⟨by rw [ih.1], by rw [ih.2.1], ih.2.2⟩

/-- The run loop never removes a fact from the store. -/
lemma mem_runLoop_store (rules : List Rule) :
    ∀ (fuel : Nat) (s : Store) (f : Fact), f ∈ s → f ∈ (runLoop rules fuel s).store
  | 0, _, _, h => h
  | fuel + 1, s, f, h => by
    rw [runLoop_succ]
    by_cases he : (selectRules rules s).isEmpty
    · simpa only [if_pos he] using h
    · simp only [if_neg he]
      exact mem_runLoop_store rules fuel _ f (mem_fireAll_of_mem _ h)

/-- Every name the run loop records as fired belongs to a rule whose
conclusion is in the final store: firing is never partial. -/
lemma fired_conclusion_mem (rules : List Rule) :
    ∀ (fuel : Nat) (s : Store) (n : String), n ∈ (runLoop rules fuel s).fired →
      ∃ r, r ∈ rules ∧ r.name = n ∧ r.conclusion ∈ (runLoop rules fuel s).store
  | 0, s, n, h => absurd h (by simp [runLoop])
  | fuel + 1, s, n, h => by
    rw [runLoop_succ] at h ⊢
    by_cases he : (selectRules rules s).isEmpty
    · rw [if_pos he] at h
      exact absurd h (by simp)
    · rw [if_neg he] at h ⊢
      rcases List.mem_append.mp h with hmap | hrest
      · rcases List.mem_map.mp hmap with ⟨r, hr, rfl⟩
        refine ⟨r, (List.mem_filter.mp hr).1, rfl, ?_⟩
        exact mem_runLoop_store rules fuel _ _ (conclusion_mem_fireAll s hr)
      · exact fired_conclusion_mem rules fuel _ n hrest

/-- Counting with a weaker predicate counts no fewer elements. -/
lemma countP_le_of_imp {α : Type} (p q : α → Bool) :
    ∀ l : List α, (∀ a ∈ l, p a = true → q a = true) → l.countP p ≤ l.countP q
  | [], _ => le_refl _
  | a :: t, h => by
    rw [List.countP_cons, List.countP_cons]
    have ht := countP_le_of_imp p q t (fun b hb => h b (List.mem_cons_of_mem a hb))
    by_cases hp : p a = true
    · rw [if_pos hp, if_pos (h a (List.mem_cons_self a t) hp)]
      exact Nat.add_le_add ht (le_refl 1)
    · rw [if_neg hp]
      exact Nat.add_le_add ht (Nat.zero_le _)

/-- Strict count decrease: a weaker predicate together with one listed
element where only the weaker one holds counts strictly fewer. -/
lemma countP_lt_of_witness {α : Type} (p q : α → Bool) :
    ∀ l : List α, (∀ a ∈ l, p a = true → q a = true) →
      ∀ a ∈ l, q a = true → p a = false → l.countP p < l.countP q
  | [], _, a, ha, _, _ => absurd ha (List.not_mem_nil a)
  | b :: t, h, a, ha, hq, hp => by
    rw [List.countP_cons, List.countP_cons]
    have ht := countP_le_of_imp p q t (fun c hc => h c (List.mem_cons_of_mem b hc))
    rcases List.mem_cons.mp ha with rfl | hat
    · rw [if_neg (by rw [hp]; exact Bool.false_ne_true), if_pos hq]
      omega
    · have hlt := countP_lt_of_witness p q t
        (fun c hc => h c (List.mem_cons_of_mem b hc)) a hat hq hp
      have hbq : (if p b = true then 1 else 0) ≤ (if q b = true then 1 else 0) := by
        by_cases hpb : p b = true
        · rw [if_pos hpb, if_pos (h b (List.mem_cons_self b t) hpb)]
        · rw [if_neg hpb]
          positivity
      omega

/-- The number of distinct rule conclusions not yet in the store: the
decreasing measure of the run loop, bounded by the number of distinct
derivable facts. -/
def missing (rules : List Rule) (s : Store) : Nat :=
  (rules.map Rule.conclusion).dedup.countP (fun f => !(decide (f ∈ s)))

/-- A rule the conflict-resolution step selects is a rule of the base,
is activated, and has an absent conclusion. -/
lemma selectRules_spec {rules : List Rule} {s : Store} {r : Rule}
    (h : r ∈ selectRules rules s) :
    r ∈ rules ∧ activated s r = true ∧ r.conclusion ∉ s := by
  rcases List.mem_filter.mp h with ⟨hr, hcond⟩
  simp only [Bool.and_eq_true, Bool.not_eq_true', decide_eq_false_iff_not] at hcond
  exact ⟨hr, hcond.1, hcond.2⟩

/-- Firing a nonempty selected batch strictly decreases the number of
absent derivable conclusions. -/
lemma missing_decreases {rules : List Rule} {s : Store}
    (h : selectRules rules s ≠ []) :
    missing rules (fireAll (selectRules rules s) s) < missing rules s := by
  rcases List.exists_mem_of_ne_nil _ h with ⟨r, hr⟩
  rcases selectRules_spec hr with ⟨hrules, _, habsent⟩
  refine countP_lt_of_witness _ _ _ ?_ r.conclusion ?_ ?_ ?_
  · intro f _ hf
    simp only [Bool.not_eq_true', decide_eq_false_iff_not] at hf ⊢
    exact fun hfs => hf (mem_fireAll_of_mem _ hfs)
  · exact List.mem_dedup.mpr (List.mem_map.mpr ⟨r, hrules, rfl⟩)
  · simp only [Bool.not_eq_true', decide_eq_false_iff_not]
    exact habsent
  · simp only [Bool.not_eq_false', decide_eq_true_eq]
    exact conclusion_mem_fireAll s hr

/-- The measure is bounded by the size of the rule base. -/
lemma missing_le (rules : List Rule) (s : Store) :
    missing rules s ≤ rules.length := by
  calc missing rules s ≤ (rules.map Rule.conclusion).dedup.length :=
        List.countP_le_length _
    _ ≤ (rules.map Rule.conclusion).length :=
        (List.dedup_sublist _).length_le
    _ = rules.length := List.length_map _ _

/-- With a pass budget above the measure, the run loop reaches a
quiescent store and uses at most `missing + 1` passes. -/
lemma runLoop_reaches_quiescence (rules : List Rule) :
    ∀ (fuel : Nat) (s : Store), missing rules s < fuel →
      selectRules rules (runLoop rules fuel s).store = [] ∧
      (runLoop rules fuel s).passes ≤ missing rules s + 1
  | 0, s, h => absurd h (Nat.not_lt_zero _)
  | fuel + 1, s, h => by
    rw [runLoop_succ]
    by_cases he : (selectRules rules s).isEmpty
    · rw [if_pos he]
      exact ⟨List.isEmpty_iff.mp he, Nat.le_add_left 1 _⟩
    · rw [if_neg he]
      have hne : selectRules rules s ≠ [] := fun hnil => he (by rw [hnil]; rfl)
      have hdec := missing_decreases hne
      have hlt : missing rules (fireAll (selectRules rules s) s) < fuel := by
        omega
      have ih := runLoop_reaches_quiescence rules fuel (fireAll (selectRules rules s) s) hlt
      refine ⟨ih.1, ?_⟩
      show (runLoop rules fuel (fireAll (selectRules rules s) s)).passes + 1 ≤
        missing rules s + 1
      have hp := ih.2
      omega

/-- On a quiescent store the run loop fires nothing, whatever the
budget. -/
lemma runLoop_fired_nil {rules : List Rule} {s : Store} (fuel : Nat)
    (h : selectRules rules s = []) :
    (runLoop rules fuel s).fired = [] := by
  cases fuel with
  | zero => rfl
  | succ n =>
    rw [runLoop_succ, if_pos (by rw [h]; rfl)]

/-- `run` always lands on a quiescent store: its pass budget exceeds
the measure. -/
lemma run_quiescent (rules : List Rule) (s : Store) :
    selectRules rules (run rules s).store = [] :=
  (runLoop_reaches_quiescence rules (rules.length + 1) s
    (Nat.lt_succ_of_le (missing_le rules s))).1

/-- Every condition of the two-rule base requires a symptom-kind
fact. -/
lemma covid_conditions_symptom :
    ∀ r ∈ covidRules, ∀ p ∈ r.conditions, p.kind = "symptom" := by
  decide

/-- Every conclusion of the two-rule base is a diagnosis-kind fact. -/
lemma covid_conclusion_diagnosis :
    ∀ r ∈ covidRules, r.conclusion.kind = "diagnosis" := by
  decide

/-- For the two-rule base a second pass never selects anything: firing
only adds diagnosis facts, which satisfy no symptom condition, so the
activation set is unchanged and every activated rule's conclusion is
already present. -/
lemma covid_select_after_fire (s : Store) :
    selectRules covidRules (fireAll (selectRules covidRules s) s) = [] := by
  unfold selectRules
  apply List.filter_eq_nil_iff.mpr
  intro r hr hcond
  simp only [Bool.and_eq_true, Bool.not_eq_true', decide_eq_false_iff_not] at hcond
  obtain ⟨hact1, habs1⟩ := hcond
  have hact : activated s r = true := by
    unfold activated at hact1 ⊢
    rw [List.all_eq_true] at hact1 ⊢
    intro p hp
    have hpk : p.kind = "symptom" := covid_conditions_symptom r hr p hp
    have hs1 := hact1 p hp
    unfold Store.satisfies at hs1 ⊢
    rw [List.any_eq_true] at hs1 ⊢
    rcases hs1 with ⟨f, hf, hm⟩
    rcases (mem_fireAll _ _ f).mp hf with hfs | ⟨r2, hr2, rfl⟩
    · exact ⟨f, hfs, hm⟩
    · exfalso
      have hk2 : r2.conclusion.kind = "diagnosis" :=
        covid_conclusion_diagnosis r2 (selectRules_spec hr2).1
      unfold matchesPattern at hm
      simp only [Bool.and_eq_true, decide_eq_true_eq] at hm
      rw [hk2, hpk] at hm
      exact absurd hm.1 (by decide)
  by_cases hc : r.conclusion ∈ s
  · exact habs1 (mem_fireAll_of_mem _ hc)
  · have hrs : r ∈ selectRules covidRules s := by
      apply List.mem_filter.mpr
      refine ⟨hr, ?_⟩
      simp only [Bool.and_eq_true, Bool.not_eq_true', decide_eq_false_iff_not]
      exact ⟨hact, hc⟩
    exact habs1 (conclusion_mem_fireAll s hrs)

/-- For the two-rule base, `run()` uses at most two passes. -/
lemma covid_passes_le (s : Store) : (run covidRules s).passes ≤ 2 := by
  show (runLoop covidRules 3 s).passes ≤ 2
  rw [runLoop_succ]
  by_cases he : (selectRules covidRules s).isEmpty
  · rw [if_pos he]
    exact Nat.le_succ 1
  · rw [if_neg he]
    have hq := covid_select_after_fire s
    show (runLoop covidRules 2 (fireAll (selectRules covidRules s) s)).passes + 1 ≤ 2
    rw [runLoop_succ, if_pos (by rw [hq]; rfl)]

/-- Selection for the two-rule base ignores a store element whose kind
is neither symptom nor diagnosis: it matches no condition and is no
rule's conclusion. -/
lemma selectRules_extra {s sg : Store} {g : Fact}
    (hg1 : g.kind ≠ "symptom") (hg2 : g.kind ≠ "diagnosis")
    (hmem : ∀ f, f ∈ sg ↔ f ∈ s ∨ f = g) :
    selectRules covidRules sg = selectRules covidRules s := by
  unfold selectRules
  refine List.filter_congr (fun r hr => ?_)
  have hact : activated sg r = activated s r := by
    unfold activated
    rw [Bool.eq_iff_iff, List.all_eq_true, List.all_eq_true]
    constructor
    · intro h p hp
      have hpk := covid_conditions_symptom r hr p hp
      have hs := h p hp
      unfold Store.satisfies at hs ⊢
      rw [List.any_eq_true] at hs ⊢
      rcases hs with ⟨f, hf, hm⟩
      rcases (hmem f).mp hf with hfs | rfl
      · exact ⟨f, hfs, hm⟩
      · exfalso
        unfold matchesPattern at hm
        simp only [Bool.and_eq_true, decide_eq_true_eq] at hm
        exact hg1 (hpk ▸ hm.1)
    · intro h p hp
      have hs := h p hp
      unfold Store.satisfies at hs ⊢
      rw [List.any_eq_true] at hs ⊢
      rcases hs with ⟨f, hf, hm⟩
      exact ⟨f, (hmem f).mpr (Or.inl hf), hm⟩
  have hconc : decide (r.conclusion ∈ sg) = decide (r.conclusion ∈ s) := by
    apply decide_eq_decide.mpr
    rw [hmem r.conclusion]
    have hck := covid_conclusion_diagnosis r hr
    constructor
    · rintro (h | rfl)
      · exact h
      · exact absurd hck hg2
    · exact Or.inl
  rw [hact, hconc]

/-- Running the two-rule base from a store extended with a fact of
unknown kind fires the same rule sequence; the final stores differ only
by that extra fact. -/
lemma runLoop_extra {g : Fact} (hg1 : g.kind ≠ "symptom")
    (hg2 : g.kind ≠ "diagnosis") :
    ∀ (fuel : Nat) (s sg : Store), (∀ f, f ∈ sg ↔ f ∈ s ∨ f = g) →
      (runLoop covidRules fuel sg).fired = (runLoop covidRules fuel s).fired ∧
      ∀ f, f ∈ (runLoop covidRules fuel sg).store ↔
        f ∈ (runLoop covidRules fuel s).store ∨ f = g
  | 0, s, sg, hmem => ⟨rfl, hmem⟩
  | fuel + 1, s, sg, hmem => by
    have hsel := selectRules_extra hg1 hg2 hmem
    rw [runLoop_succ, runLoop_succ, hsel]
    by_cases he : (selectRules covidRules s).isEmpty
    · simp only [if_pos he]
      exact ⟨by trivial, hmem⟩
    · simp only [if_neg he]
      have hnext : ∀ f, f ∈ fireAll (selectRules covidRules s) sg ↔
          f ∈ fireAll (selectRules covidRules s) s ∨ f = g := by
        intro f
        rw [mem_fireAll, mem_fireAll, hmem f]
        constructor
        · rintro ((hfs | rfl) | hex)
          · exact Or.inl (Or.inl hfs)
          · exact Or.inr rfl
          · exact Or.inl (Or.inr hex)
        · rintro ((hfs | hex) | rfl)
          · exact Or.inl (Or.inl hfs)
          · exact Or.inr hex
          · exact Or.inl (Or.inr rfl)
      have ih := runLoop_extra hg1 hg2 fuel (fireAll (selectRules covidRules s) s)
        (fireAll (selectRules covidRules s) sg) hnext
      exact ⟨by rw [ih.1], ih.2⟩

/-- One quiescent pass leaves everything unchanged and fires nothing. -/
lemma runLoop_eq_of_quiescent {rules : List Rule} {s : Store} (fuel : Nat)
    (h : selectRules rules s = []) :
    runLoop rules (fuel + 1) s = ⟨[], s, 1⟩ := by
  rw [runLoop_succ, if_pos (by rw [h]; rfl)]

/-- C1: for the input fact set with all four symptoms, after `run()`
both diagnosis facts ("Likely COVID-19" and "Possible severe COVID-19 -
seek medical attention") are in the Fact Store and the fired-rule
sequence is exactly ["covid-likely", "covid-severe"] in declaration
order. -/
theorem scenario3_both_diagnoses :
    (run covidRules (initialStore true true true true)).fired =
      ["covid-likely", "covid-severe"] ∧
    diagnosisFact "Likely COVID-19" ∈
      (run covidRules (initialStore true true true true)).store ∧
    diagnosisFact "Possible severe COVID-19 - seek medical attention" ∈
      (run covidRules (initialStore true true true true)).store := by
  decide

/-- C2: for the input fact set {fever, cough, loss_of_taste}, after
`run()` the diagnosis facts are exactly ["Likely COVID-19"] and the
fired-rule sequence is exactly ["covid-likely"]. -/
theorem scenario1_likely_only :
    diagnoses (run covidRules (initialStore true true true false)).store =
      ["Likely COVID-19"] ∧
    (run covidRules (initialStore true true true false)).fired =
      ["covid-likely"] := by
  decide

/-- C3: when no rule's conjunction is fully satisfied — the empty
symptom set, and the set with only cough — `run()` produces no
diagnosis facts and an empty fired-rule sequence. -/
theorem no_match_no_diagnosis :
    (diagnoses (run covidRules (initialStore false false false false)).store = [] ∧
     (run covidRules (initialStore false false false false)).fired = []) ∧
    (diagnoses (run covidRules (initialStore false true false false)).store = [] ∧
     (run covidRules (initialStore false true false false)).fired = []) := by
  decide

/-- C4: quiescence — for every Fact Store state, immediately invoking
`run()` again after a `run()` fires no rules, returns an empty
fired-rule list, and derives no new facts. -/
theorem run_quiescence (rules : List Rule) (s : Store) :
    (run rules (run rules s).store).fired = [] ∧
    (run rules (run rules s).store).store = (run rules s).store := by
  have h : run rules (run rules s).store =
      ⟨[], (run rules s).store, 1⟩ :=
    runLoop_eq_of_quiescent rules.length (run_quiescent rules s)
  rw [h]
  exact ⟨rfl, rfl⟩

/-- C5: idempotence of assert — asserting a fact a second time when it
is already present is a no-op: the snapshot equals the snapshot after
the first assert and nothing is reported as newly added. -/
theorem assert_idempotent (s : Store) (f : Fact) :
    ((s.assertFact f).2).assertFact f = (false, (s.assertFact f).2) := by
  show (if f ∈ (s.assertFact f).2 then ((false, (s.assertFact f).2) : Bool × Store)
    else (true, (s.assertFact f).2 ++ [f])) = (false, (s.assertFact f).2)
  rw [if_pos (self_mem_assertFact s f)]

/-- C6: monotonicity — every fact present before `run()` is still
present after it (and `assert` also never removes facts); `clear()` is
the removing operation, emptying the store. -/
theorem run_monotone :
    (∀ (rules : List Rule) (s : Store) (f : Fact), f ∈ s → f ∈ (run rules s).store) ∧
    (∀ (s : Store) (g f : Fact), f ∈ s → f ∈ (s.assertFact g).2) ∧
    (∀ s : Store, Store.clearAll s = ([] : Store)) :=
  ⟨fun rules s f h => mem_runLoop_store rules _ s f h,
   fun s g f h => (mem_assertFact s g f).mpr (Or.inl h),
   fun _ => rfl⟩

/-- Witness for C6 at a concrete store and fact. -/
theorem run_monotone_witness :
    symptomFact "fever" ∈ initialStore true false false false ∧
    symptomFact "fever" ∈ (run covidRules (initialStore true false false false)).store ∧
    symptomFact "fever" ∈
      ((initialStore true false false false).assertFact (symptomFact "cough")).2 ∧
    Store.clearAll (initialStore true false false false) = ([] : Store) :=
  ⟨by decide,
   run_monotone.1 covidRules (initialStore true false false false)
     (symptomFact "fever") (by decide),
   run_monotone.2.1 (initialStore true false false false) (symptomFact "cough")
     (symptomFact "fever") (by decide),
   run_monotone.2.2 (initialStore true false false false)⟩

/-- C7: determinism — for a fixed Rule Base and fixed Fact Store
contents (same facts held, whatever their stored order), `run()`
produces the identical fired-rule sequence and the identical final fact
set. -/
theorem run_deterministic (rules : List Rule) (s1 s2 : Store)
    (hmem : ∀ f, f ∈ s1 ↔ f ∈ s2) :
    (run rules s1).fired = (run rules s2).fired ∧
    ∀ f, f ∈ (run rules s1).store ↔ f ∈ (run rules s2).store :=
  ⟨(runLoop_congr rules _ s1 s2 hmem).1, (runLoop_congr rules _ s1 s2 hmem).2.2⟩

/-- Witness for C7 at two stores holding the same facts in different
orders. -/
theorem run_deterministic_witness :
    (∀ f : Fact, f ∈ ([symptomFact "fever", symptomFact "cough"] : Store) ↔
      f ∈ ([symptomFact "cough", symptomFact "fever"] : Store)) ∧
    (run covidRules ([symptomFact "fever", symptomFact "cough"] : Store)).fired =
      (run covidRules ([symptomFact "cough", symptomFact "fever"] : Store)).fired :=
  have h : ∀ f : Fact, f ∈ ([symptomFact "fever", symptomFact "cough"] : Store) ↔
      f ∈ ([symptomFact "cough", symptomFact "fever"] : Store) := by
    intro f
    simp only [List.mem_cons, List.not_mem_nil, or_false]
    exact or_comm
  ⟨h, (run_deterministic covidRules
    ([symptomFact "fever", symptomFact "cough"] : Store)
    ([symptomFact "cough", symptomFact "fever"] : Store) h).1⟩

/-- C8: termination — `run()` always reaches quiescence, in at most
|rules| = 2 passes for the two-rule base, and in general in at most
(number of distinct derivable facts + 1) passes. -/
theorem run_terminates_bounded :
    (∀ (rules : List Rule) (s : Store),
      selectRules rules (run rules s).store = []) ∧
    (∀ s : Store, (run covidRules s).passes ≤ covidRules.length) ∧
    (∀ (rules : List Rule) (s : Store),
      (run rules s).passes ≤ (rules.map Rule.conclusion).dedup.length + 1) :=
  ⟨fun rules s => run_quiescent rules s,
   fun s => covid_passes_le s,
   fun rules s =>
     le_trans
       (runLoop_reaches_quiescence rules (rules.length + 1) s
         (Nat.lt_succ_of_le (missing_le rules s))).2
       (Nat.add_le_add_right (List.countP_le_length _) 1)⟩

/-- C9: totality and atomicity — asserting a fact of unknown kind is
legal and leaves the fired-rule sequence unchanged (it matches no
rule), and `run()` never partially applies effects: every rule recorded
as fired has its conclusion present in the final store. -/
theorem run_total_atomic :
    (∀ (s : Store) (g : Fact), g.kind ≠ "symptom" → g.kind ≠ "diagnosis" →
      (run covidRules ((s.assertFact g).2)).fired = (run covidRules s).fired) ∧
    (∀ (rules : List Rule) (s : Store) (n : String), n ∈ (run rules s).fired →
      ∃ r, r ∈ rules ∧ r.name = n ∧ r.conclusion ∈ (run rules s).store) :=
  ⟨fun s g hg1 hg2 =>
      (runLoop_extra hg1 hg2 (covidRules.length + 1) s ((s.assertFact g).2)
        (fun f => mem_assertFact s g f)).1,
   fun rules s n h => fired_conclusion_mem rules (rules.length + 1) s n h⟩

/-- Witness for C9 at an unknown-kind fact and a concrete run. -/
theorem run_total_atomic_witness :
    (Fact.mk "temperature" [("value", "high")]).kind ≠ "symptom" ∧
    (Fact.mk "temperature" [("value", "high")]).kind ≠ "diagnosis" ∧
    (run covidRules (((initialStore true true true false).assertFact
        (Fact.mk "temperature" [("value", "high")])).2)).fired =
      (run covidRules (initialStore true true true false)).fired ∧
    "covid-likely" ∈ (run covidRules (initialStore true true true false)).fired ∧
    ∃ r, r ∈ covidRules ∧ r.name = "covid-likely" ∧
      r.conclusion ∈ (run covidRules (initialStore true true true false)).store :=
  ⟨by decide, by decide,
   run_total_atomic.1 (initialStore true true true false)
     (Fact.mk "temperature" [("value", "high")]) (by decide) (by decide),
   by decide,
   run_total_atomic.2 covidRules (initialStore true true true false)
     "covid-likely" (by decide)⟩

/-- C10: the fired-rules list `diagnose()` builds by enumerating the
agenda after `run()` has finished is empty for every symptom selection
(firing removed every activation), so the display always shows the
placeholder text. -/
theorem fired_display_always_empty :
    ∀ a b c d : Bool,
      agendaAfterRun covidRules (initialStore a b c d) = [] ∧
      firedRulesText (agendaAfterRun covidRules (initialStore a b c d)) =
        "(No items on the CLIPS agenda or agenda not available)" := by
  decide

end CovidES
